import Mathlib

/-!
Shallow embedding of the hft-demo pipeline (feed handler enrichment,
order-book manager, strategies, record/replay) and verification of the
spec's claims about it.

Modelling conventions:
* `f64` values (prices, quantities, latencies) are modelled as exact
  rationals `ℚ`; `u64`/`u128` values as `Nat`, with wrapping subtraction
  made explicit where the source performs unsigned subtraction.
* `HashMap` fields are modelled as functions `String → Option _`
  (resp. `String → List _` for the mean-reversion price history, whose
  Rust counterpart defaults a missing key to an empty vector via
  `or_insert_with(Vec::new)`).
* Methods taking `&mut self` become functions returning the new state.
* Calls to `SystemTime::now()` inside signal construction become an
  explicit `now` argument.
-/

namespace HftDemo

/-- MarketTick from hft-types/src/lib.rs. -/
structure MarketTick where
  symbol : String
  price : ℚ
  volume : Nat
  timestamp_nanos : Nat
deriving DecidableEq, Repr

/-- EnrichedTick from hft-types/src/lib.rs. -/
structure EnrichedTick where
  tick : MarketTick
  receive_time_nanos : Nat
  latency_micros : ℚ
deriving DecidableEq, Repr

/-- OrderSide from hft-types/src/lib.rs. -/
inductive OrderSide where
  | Buy
  | Sell
deriving DecidableEq, Repr

/-- SignalType from hft-types/src/lib.rs. -/
inductive SignalType where
  | Threshold
  | MarketMaking
  | Arbitrage
  | MeanReversion
deriving DecidableEq, Repr

/-- TradingSignal from hft-types/src/lib.rs. -/
structure TradingSignal where
  symbol : String
  side : OrderSide
  price : ℚ
  quantity : ℚ
  signal_type : SignalType
  timestamp_nanos : Nat
deriving DecidableEq, Repr

/-- BookLevel from hft-types/src/lib.rs. -/
structure BookLevel where
  price : ℚ
  quantity : ℚ
deriving DecidableEq, Repr

/-- OrderBook from hft-types/src/lib.rs. -/
structure OrderBook where
  symbol : String
  bids : List BookLevel
  asks : List BookLevel
  timestamp_nanos : Nat
deriving DecidableEq, Repr

/-- OrderBook::new. -/
def OrderBook.new (symbol : String) (timestamp_nanos : Nat) : OrderBook :=
  { symbol := symbol, bids := [], asks := [], timestamp_nanos := timestamp_nanos }

/-- OrderBook::best_bid: `self.bids.first()`. -/
def OrderBook.best_bid (b : OrderBook) : Option BookLevel :=
  b.bids.head?

/-- OrderBook::best_ask: `self.asks.first()`. -/
def OrderBook.best_ask (b : OrderBook) : Option BookLevel :=
  b.asks.head?

/-- OrderBookManager from hft-types/src/orderbook.rs; the `HashMap<String, OrderBook>`
is modelled as a function. -/
structure OrderBookManager where
  books : String → Option OrderBook

/-- OrderBookManager::new. -/
def OrderBookManager.empty : OrderBookManager :=
  ⟨fun _ => none⟩

/-- The hardcoded `spread_bps = 10.0` of update_from_tick. -/
def spread_bps : ℚ := 10

/-- Bid price of level `i` in update_from_tick:
`tick.price - spread / 2.0 - (i as f64 * tick.price * 0.0001)` with
`spread = tick.price * (spread_bps / 10000.0)`. -/
def bidLevelPrice (t : MarketTick) (i : Nat) : ℚ :=
  t.price - t.price * (spread_bps / 10000) / 2 - (i : ℚ) * t.price * (1 / 10000)

/-- Ask price of level `i` in update_from_tick:
`tick.price + spread / 2.0 + (i as f64 * tick.price * 0.0001)`. -/
def askLevelPrice (t : MarketTick) (i : Nat) : ℚ :=
  t.price + t.price * (spread_bps / 10000) / 2 + (i : ℚ) * t.price * (1 / 10000)

/-- Quantity of level `i` in update_from_tick: `tick.volume as f64 / (i + 1) as f64`. -/
def levelQuantity (t : MarketTick) (i : Nat) : ℚ :=
  (t.volume : ℚ) / ((i : ℚ) + 1)

/-- The five bid levels pushed by the `for i in 0..5` loop of update_from_tick. -/
def syntheticBids (t : MarketTick) : List BookLevel :=
  (List.range 5).map fun i => { price := bidLevelPrice t i, quantity := levelQuantity t i }

/-- The five ask levels pushed by the `for i in 0..5` loop of update_from_tick. -/
def syntheticAsks (t : MarketTick) : List BookLevel :=
  (List.range 5).map fun i => { price := askLevelPrice t i, quantity := levelQuantity t i }

/-- OrderBookManager::update_from_tick: locate or create the book for the
tick's symbol, set its timestamp, clear both sides and push five synthetic
levels per side. -/
def OrderBookManager.update_from_tick (m : OrderBookManager) (t : MarketTick) :
    OrderBookManager :=
  let book := (m.books t.symbol).getD (OrderBook.new t.symbol t.timestamp_nanos)
  let book' : OrderBook :=
    { book with
      timestamp_nanos := t.timestamp_nanos
      bids := syntheticBids t
      asks := syntheticAsks t }
  ⟨fun s => if s = t.symbol then some book' else m.books s⟩

/-- OrderBookManager::get_book. -/
def OrderBookManager.get_book (m : OrderBookManager) (symbol : String) : Option OrderBook :=
  m.books symbol

/-- OrderBookManager::get_bbo. -/
def OrderBookManager.get_bbo (m : OrderBookManager) (symbol : String) : Option (ℚ × ℚ) :=
  (m.books symbol).bind fun book =>
    book.best_bid.bind fun bid => book.best_ask.map fun ask => (bid.price, ask.price)

/-- The slice of bid levels over which calculate_vwap sums:
`&book.bids[..side_depth.min(book.bids.len())]` when `side_depth > 0`,
all of `book.bids` otherwise. -/
def vwapLevels (book : OrderBook) (side_depth : Nat) : List BookLevel :=
  if side_depth > 0 then book.bids.take (min side_depth book.bids.length) else book.bids

/-- OrderBookManager::calculate_vwap. -/
def OrderBookManager.calculate_vwap (m : OrderBookManager) (symbol : String)
    (side_depth : Nat) : Option ℚ :=
  (m.books symbol).map fun book =>
    let levels := vwapLevels book side_depth
    let total_value := (levels.map fun level => level.price * level.quantity).sum
    let total_quantity := (levels.map fun level => level.quantity).sum
    if total_quantity > 0 then total_value / total_quantity else 0

/-- OrderBookManager::is_crossed. -/
def OrderBookManager.is_crossed (m : OrderBookManager) (symbol : String) : Bool :=
  match m.get_bbo symbol with
  | some (bid, ask) => decide (bid ≥ ask)
  | none => false

/-! ### Strategies (hft-types/src/strategies.rs) -/

/-- ThresholdStrategy: the `HashMap<String, (f64, f64)>` of (low, high) bands
is modelled as a function. -/
structure ThresholdStrategy where
  thresholds : String → Option (ℚ × ℚ)
  order_size : ℚ

/-- ThresholdStrategy::process_tick. `now` stands for the
`SystemTime::now()` call used for the signal timestamp. The strategy
mutates no state, so only the optional signal is returned. -/
def ThresholdStrategy.process_tick (st : ThresholdStrategy) (enriched : EnrichedTick)
    (now : Nat) : Option TradingSignal :=
  let tick := enriched.tick
  match st.thresholds tick.symbol with
  | some (low, high) =>
    let side : Option OrderSide :=
      if tick.price < low then some OrderSide.Buy
      else if tick.price > high then some OrderSide.Sell
      else none
    side.map fun s =>
      { symbol := tick.symbol
        side := s
        price := tick.price
        quantity := st.order_size
        signal_type := SignalType.Threshold
        timestamp_nanos := now }
  | none => none

/-- MeanReversionStrategy: the per-symbol `HashMap<String, Vec<f64>>` price
history is modelled as a function defaulting to `[]` (matching
`or_insert_with(Vec::new)`). -/
structure MeanReversionStrategy where
  window_size : Nat
  std_dev_threshold : ℚ
  order_size : ℚ
  price_history : String → List ℚ

/-- MeanReversionStrategy::calculate_mean: `prices.iter().sum() / prices.len()`
(an empty slice gives 0/0, which is 0 in ℚ). -/
def calculate_mean (prices : List ℚ) : ℚ :=
  prices.sum / (prices.length : ℚ)

/-- The variance computed inside MeanReversionStrategy::calculate_std_dev:
`Σ (p - mean)^2 / prices.len()`; the source then takes `variance.sqrt()`. -/
def calculate_variance (prices : List ℚ) (mean : ℚ) : ℚ :=
  (prices.map fun p => (p - mean) ^ 2).sum / (prices.length : ℚ)

/-- The history buffer after `history.push(tick.price)` followed by
`if history.len() > window_size { history.remove(0); }`. -/
def pushTrim (window_size : Nat) (history : List ℚ) (price : ℚ) : List ℚ :=
  let h := history ++ [price]
  if h.length > window_size then h.tail else h

/-- The rolling window (price history) of the tick's symbol right after the
push-and-trim step of MeanReversionStrategy::process_tick; the statistics of
that call are computed over this list, which already contains the new
tick's price as its last element. -/
def MeanReversionStrategy.newHistory (st : MeanReversionStrategy)
    (enriched : EnrichedTick) : List ℚ :=
  pushTrim st.window_size (st.price_history enriched.tick.symbol) enriched.tick.price

/-- MeanReversionStrategy::process_tick. The source computes
`std_dev = variance.sqrt()`, `z = (price - mean) / std_dev` and tests
`z.abs() > threshold`, signalling Sell when `z > 0` and Buy otherwise.
Here the test is rendered in exact arithmetic without the irrational
square root: for `threshold ≥ 0`, `|d| / sqrt v > threshold` is equivalent
to `d^2 > threshold^2 * v` when `v > 0`, and when `v = 0` both the IEEE
evaluation (`d / 0.0 = ±inf` for `d ≠ 0`, `NaN` for `d = 0`) and this
rendering signal exactly when `d ≠ 0`; the sign test `z > 0` becomes
`d > 0`. Returns the optional signal and the updated strategy state. -/
def MeanReversionStrategy.process_tick (st : MeanReversionStrategy)
    (enriched : EnrichedTick) (now : Nat) :
    Option TradingSignal × MeanReversionStrategy :=
  let tick := enriched.tick
  let history := st.newHistory enriched
  let st' : MeanReversionStrategy :=
    { st with price_history := fun s => if s = tick.symbol then history else st.price_history s }
  if history.length < st.window_size then (none, st')
  else
    let mean := calculate_mean history
    let variance := calculate_variance history mean
    let d := tick.price - mean
    if d ^ 2 > st.std_dev_threshold ^ 2 * variance then
      let side := if d > 0 then OrderSide.Sell else OrderSide.Buy
      (some { symbol := tick.symbol
              side := side
              price := tick.price
              quantity := st.order_size
              signal_type := SignalType.MeanReversion
              timestamp_nanos := now }, st')
    else (none, st')

/-- Specification-side z-score of a price against a window, with the real
square root the source computes via `f64::sqrt`:
`z = (price - mean) / sqrt(variance)`. Used only to state claims. -/
noncomputable def zScore (prices : List ℚ) (price : ℚ) : ℝ :=
  ((price - calculate_mean prices : ℚ) : ℝ) /
    Real.sqrt ((calculate_variance prices (calculate_mean prices) : ℚ) : ℝ)

/-! ### Record / replay (hft-types/src/replay.rs) -/

/-- One line of a replay file: either it parses as a MarketTick or it is
malformed. Recording goes through `serde_json::to_string` and replaying
through `serde_json::from_str`; the external JSON codec is modelled by its
round-trip contract, so a line written by the recorder is `ReplayLine.ok t`
for the recorded tick `t`. -/
inductive ReplayLine where
  | ok (tick : MarketTick)
  | bad
deriving DecidableEq, Repr

/-- MarketRecorder: the append-only file is the list of lines written so far. -/
structure MarketRecorder where
  lines : List ReplayLine
  tick_count : Nat
deriving DecidableEq, Repr

/-- MarketRecorder::new on a fresh file. -/
def MarketRecorder.new : MarketRecorder :=
  { lines := [], tick_count := 0 }

/-- MarketRecorder::record_tick: serialize the tick, write it as one line,
increment the running count. -/
def MarketRecorder.record_tick (r : MarketRecorder) (t : MarketTick) : MarketRecorder :=
  { lines := r.lines ++ [ReplayLine.ok t], tick_count := r.tick_count + 1 }

/-- recordAll: record a sequence of ticks in order on a fresh recorder. -/
def recordAll (ts : List MarketTick) : MarketRecorder :=
  ts.foldl MarketRecorder.record_tick MarketRecorder.new

/-- The `std::io::Error` produced by MarketReplayer::next_tick on a
malformed line (`ErrorKind::InvalidData`). -/
inductive ReplayError where
  | invalidData
deriving DecidableEq, Repr

/-- MarketReplayer: the unread remainder of the file plus the running count. -/
structure MarketReplayer where
  lines : List ReplayLine
  tick_count : Nat
deriving DecidableEq, Repr

/-- MarketReplayer::new on a file with the given lines. -/
def MarketReplayer.new (file : List ReplayLine) : MarketReplayer :=
  { lines := file, tick_count := 0 }

/-- MarketReplayer::next_tick: zero bytes read means end of stream
(`Ok(None)`, state unchanged); a line that parses yields the tick and
increments `tick_count`; a malformed line is consumed and the parse error
is propagated (`Err(..)`), leaving `tick_count` unchanged. -/
def MarketReplayer.next_tick (r : MarketReplayer) :
    Except ReplayError (Option MarketTick) × MarketReplayer :=
  match r.lines with
  | [] => (Except.ok none, r)
  | ReplayLine.ok t :: rest =>
      (Except.ok (some t), { lines := rest, tick_count := r.tick_count + 1 })
  | ReplayLine.bad :: rest =>
      (Except.error ReplayError.invalidData, { lines := rest, tick_count := r.tick_count })

/-- Read up to `fuel` ticks with next_tick, stopping at end of stream or on
an error (the `while let Some(tick) = replayer.next_tick()?` loop shape). -/
def readTicks : MarketReplayer → Nat → List MarketTick × MarketReplayer
  | r, 0 => ([], r)
  | r, Nat.succ fuel =>
    match r.next_tick with
    | (Except.ok (some t), r') =>
        let rest := readTicks r' fuel
        (t :: rest.1, rest.2)
    | (Except.ok none, r') => ([], r')
    | (Except.error _, r') => ([], r')

/-- 2^128, the modulus of u128 arithmetic. -/
def two128 : Nat := 2 ^ 128

/-- 2^64, the modulus of u64 arithmetic. -/
def two64 : Nat := 2 ^ 64

/-- Wrapping u128 subtraction `a - b` (release-mode semantics of Rust's
`u128` subtraction; in debug builds the same expression panics when
`b > a`). Faithful for `a, b < 2^128`. -/
def wrapSub128 (a b : Nat) : Nat :=
  (a + two128 - b) % two128

/-- ReplayStats from hft-types/src/replay.rs; `symbols` is the `HashSet`. -/
structure ReplayStats where
  total_ticks : Nat
  start_timestamp : Nat
  end_timestamp : Nat
  duration_ms : Nat
  symbols : Finset String
deriving DecidableEq

/-- The accumulator loop of ReplayStats::from_file:
`while let Some(tick) = replayer.next_tick()? { ... }` threading
(total_ticks, start_timestamp, end_timestamp, symbols). -/
def statsLoop : List MarketTick → Nat → Nat → Nat → Finset String →
    Nat × Nat × Nat × Finset String
  | [], total, start, stop, syms => (total, start, stop, syms)
  | t :: rest, total, start, stop, syms =>
      statsLoop rest (total + 1)
        (if total = 0 then t.timestamp_nanos else start)
        t.timestamp_nanos
        (insert t.symbol syms)
  termination_by ts _ _ _ _ => ts.length

/-- ReplayStats::from_file on a file of well-formed ticks: one pass with
the accumulator loop, then
`duration_ms = ((end_timestamp - start_timestamp) / 1_000_000) as u64`,
where the subtraction is unsigned u128 (wrapping in release builds) and the
cast truncates to 64 bits. -/
def ReplayStats.from_list (ts : List MarketTick) : ReplayStats :=
  let r := statsLoop ts 0 0 0 ∅
  { total_ticks := r.1
    start_timestamp := r.2.1
    end_timestamp := r.2.2.1
    duration_ms := wrapSub128 r.2.2.1 r.2.1 / 1000000 % two64
    symbols := r.2.2.2 }

/-! ### Feed handler enrichment (feed_handler/src/main.rs) -/

/-- The latency actually computed by FeedHandler::run:
`let latency_nanos = receive_time_nanos - tick.timestamp_nanos;` is an
unsigned u128 subtraction (wrapping in release builds, panicking in debug
builds when the tick's origin timestamp exceeds the receive time), followed
by `latency_nanos as f64 / 1000.0`. -/
def latency_micros_code (receive_time_nanos timestamp_nanos : Nat) : ℚ :=
  ((wrapSub128 receive_time_nanos timestamp_nanos : Nat) : ℚ) / 1000

/-- Modelled from the spec: the claimed signed-arithmetic latency
`(receive_time_nanos − tick.timestamp_nanos) / 1000`, negative when the
origin timestamp exceeds the receive time. -/
def latency_micros_spec (receive_time_nanos timestamp_nanos : Nat) : ℚ :=
  (((receive_time_nanos : ℤ) - (timestamp_nanos : ℤ) : ℤ) : ℚ) / 1000

/-- The enrichment step of FeedHandler::run on a successfully parsed tick. -/
def enrichTick (receive_time_nanos : Nat) (t : MarketTick) : EnrichedTick :=
  { tick := t
    receive_time_nanos := receive_time_nanos
    latency_micros := latency_micros_code receive_time_nanos t.timestamp_nanos }

/-! ### Concrete inputs used by counterexamples and witnesses -/

/-- A tick with price 0 (the degenerate price the spec's `price ≥ 0` admits). -/
def tickZero : MarketTick := { symbol := "BTC/USD", price := 0, volume := 100, timestamp_nanos := 7 }

/-- A tick at the test suite's BTC price. -/
def tick45k : MarketTick := { symbol := "BTC/USD", price := 45000, volume := 100, timestamp_nanos := 7 }

/-- The manager after one update with `tick45k`. -/
def mgr45k : OrderBookManager := OrderBookManager.empty.update_from_tick tick45k

/-- The synthetic book `mgr45k` holds for BTC/USD. -/
def book45k : OrderBook :=
  { symbol := "BTC/USD", bids := syntheticBids tick45k, asks := syntheticAsks tick45k
    timestamp_nanos := 7 }

/-- Threshold strategy with the spec's example band. -/
def thStratEx : ThresholdStrategy :=
  { thresholds := fun s => if s = "BTC/USD" then some (44000, 46000) else none
    order_size := 1 }

/-- Enriched tick priced below the example band. -/
def enrEx : EnrichedTick :=
  { tick := { symbol := "BTC/USD", price := 43500, volume := 100, timestamp_nanos := 0 }
    receive_time_nanos := 0, latency_micros := 0 }

/-- Fresh mean-reversion strategy: window 2, threshold 1/2, order size 1. -/
def mrSt0 : MeanReversionStrategy :=
  { window_size := 2, std_dev_threshold := 1/2, order_size := 1, price_history := fun _ => [] }

/-- An enriched tick for symbol A at the given price. -/
def mrEnr (p : ℚ) : EnrichedTick :=
  { tick := { symbol := "A", price := p, volume := 100, timestamp_nanos := 0 }
    receive_time_nanos := 0, latency_micros := 0 }

/-- Mean-reversion strategy whose window for A already holds one price 100. -/
def mrSt1 : MeanReversionStrategy :=
  { window_size := 2, std_dev_threshold := 1/2, order_size := 1
    price_history := fun s => if s = "A" then [100] else [] }

/-! ### C1 -/

/-- C1: the claim says the enrichment step computes
`latency_micros = (receive_time_nanos − tick.timestamp_nanos) / 1000` with
signed arithmetic, negative when the tick's origin timestamp exceeds the
receive time, never wrapping and never panicking. The code instead performs
the subtraction on `u128`: with `receive_time_nanos = 0` and
`tick.timestamp_nanos = 1` it wraps to `(2^128 − 1) / 1000` microseconds in
release builds (and panics in debug builds) instead of the claimed
`−1/1000`. -/
theorem C1_latency_unsigned_subtraction :
    (enrichTick 0 { symbol := "S", price := 1, volume := 1, timestamp_nanos := 1 }).latency_micros
        = ((two128 - 1 : Nat) : ℚ) / 1000 ∧
    latency_micros_spec 0 1 = -1 / 1000 ∧
    (enrichTick 0 { symbol := "S", price := 1, volume := 1, timestamp_nanos := 1 }).latency_micros
        ≠ latency_micros_spec 0 1 := by
  refine ⟨?_, ?_, ?_⟩
  · norm_num [enrichTick, latency_micros_code, wrapSub128, two128]
  · norm_num [latency_micros_spec]
  · norm_num [enrichTick, latency_micros_code, latency_micros_spec, wrapSub128, two128]

/-! ### C8 -/

/-- C8: ThresholdStrategy.process_tick emits Buy below the configured low
bound, Sell above the high bound, nothing inside the band, and nothing for
a symbol with no configured band; every emitted signal carries the
configured order size as its quantity. -/
theorem C8_threshold_strategy (st : ThresholdStrategy) (e : EnrichedTick) (now : Nat)
    (low high : ℚ) :
    (st.thresholds e.tick.symbol = none → st.process_tick e now = none) ∧
    (st.thresholds e.tick.symbol = some (low, high) → low ≤ high →
      (e.tick.price < low → st.process_tick e now =
        some { symbol := e.tick.symbol, side := OrderSide.Buy, price := e.tick.price,
               quantity := st.order_size, signal_type := SignalType.Threshold,
               timestamp_nanos := now }) ∧
      (high < e.tick.price → st.process_tick e now =
        some { symbol := e.tick.symbol, side := OrderSide.Sell, price := e.tick.price,
               quantity := st.order_size, signal_type := SignalType.Threshold,
               timestamp_nanos := now }) ∧
      (low ≤ e.tick.price → e.tick.price ≤ high → st.process_tick e now = none)) := by
  constructor
  · intro h
    simp [ThresholdStrategy.process_tick, h]
  · intro h hlh
    refine ⟨?_, ?_, ?_⟩
    · intro hlow
      simp [ThresholdStrategy.process_tick, h, hlow]
    · intro hhigh
      have hnl : ¬ e.tick.price < low := not_lt.mpr (le_trans hlh (le_of_lt hhigh))
      simp [ThresholdStrategy.process_tick, h, hnl, hhigh]
    · intro h1 h2
      simp [ThresholdStrategy.process_tick, h, not_lt.mpr h1, not_lt.mpr h2]

/-- Witness for C8 at the spec's example: band (44000, 46000) on BTC/USD,
tick price 43500, emitting Buy with the configured order size 1. -/
theorem C8_witness :
    thStratEx.process_tick enrEx 7 =
      some { symbol := "BTC/USD", side := OrderSide.Buy, price := 43500, quantity := 1,
             signal_type := SignalType.Threshold, timestamp_nanos := 7 } :=
  ((C8_threshold_strategy thStratEx enrEx 7 44000 46000).2 (by simp [thStratEx, enrEx])
      (by norm_num)).1 (by norm_num [enrEx])

/-! ### Shared order-book lemmas -/

/-- update_from_tick installs the synthetic book under the tick's symbol. -/
theorem update_books_self (m : OrderBookManager) (t : MarketTick) :
    (m.update_from_tick t).books t.symbol =
      some { symbol := ((m.books t.symbol).getD (OrderBook.new t.symbol t.timestamp_nanos)).symbol
             bids := syntheticBids t, asks := syntheticAsks t
             timestamp_nanos := t.timestamp_nanos } := by
  simp [OrderBookManager.update_from_tick]

/-- Bid level prices strictly decrease with the level index when the tick
price is positive. -/
theorem bidLevelPrice_anti (t : MarketTick) (hp : 0 < t.price) {i j : Nat} (hij : i < j) :
    bidLevelPrice t j < bidLevelPrice t i := by
  unfold bidLevelPrice
  have h : (i : ℚ) < (j : ℚ) := by exact_mod_cast hij
  have h2 := mul_lt_mul_of_pos_right h hp
  linarith

/-- Ask level prices strictly increase with the level index when the tick
price is positive. -/
theorem askLevelPrice_mono (t : MarketTick) (hp : 0 < t.price) {i j : Nat} (hij : i < j) :
    askLevelPrice t i < askLevelPrice t j := by
  unfold askLevelPrice
  have h : (i : ℚ) < (j : ℚ) := by exact_mod_cast hij
  have h2 := mul_lt_mul_of_pos_right h hp
  linarith

/-- Best synthetic bid lies strictly below best synthetic ask when the tick
price is positive. -/
theorem bid0_lt_ask0 (t : MarketTick) (hp : 0 < t.price) :
    bidLevelPrice t 0 < askLevelPrice t 0 := by
  unfold bidLevelPrice askLevelPrice spread_bps
  have h : 0 < t.price * (10 / 10000) := by positivity
  push_cast
  linarith

/-! ### C4 -/

/-- C4 counterexample: the claim admits any tick with price ≥ 0, but at
price 0 every synthetic level price collapses to 0: the bid side is not
strictly decreasing and best bid equals best ask, so best bid < best ask
fails. -/
theorem C4_counterexample :
    (0 : ℚ) ≤ tickZero.price ∧
    ((OrderBookManager.empty.update_from_tick tickZero).get_book "BTC/USD").map
        (fun b => b.bids.map fun l => l.price) = some [0, 0, 0, 0, 0] ∧
    (OrderBookManager.empty.update_from_tick tickZero).get_bbo "BTC/USD" = some (0, 0) ∧
    ¬ ((0 : ℚ) < 0) := by
  have hr : List.range 5 = [0, 1, 2, 3, 4] := rfl
  refine ⟨by norm_num [tickZero], ?_, ?_, by norm_num⟩
  · norm_num [OrderBookManager.update_from_tick, OrderBookManager.get_book,
      OrderBookManager.empty, tickZero, syntheticBids, syntheticAsks, bidLevelPrice,
      askLevelPrice, levelQuantity, spread_bps, hr]
  · norm_num [OrderBookManager.update_from_tick, OrderBookManager.get_bbo,
      OrderBookManager.empty, tickZero, syntheticBids, syntheticAsks, bidLevelPrice,
      askLevelPrice, levelQuantity, spread_bps, hr, OrderBook.best_bid, OrderBook.best_ask]

/-- C4 (amended: tick price strictly positive): update_from_tick produces a
book with exactly 5 bid levels strictly decreasing in price, 5 ask levels
strictly increasing in price, level i carrying quantity volume/(i+1) on
both sides, and best bid strictly below best ask. -/
theorem C4_book_shape_amended (m : OrderBookManager) (t : MarketTick) (hp : 0 < t.price) :
    ∃ book, (m.update_from_tick t).books t.symbol = some book ∧
      book.bids.length = 5 ∧ book.asks.length = 5 ∧
      book.bids.Pairwise (fun a b => b.price < a.price) ∧
      book.asks.Pairwise (fun a b => a.price < b.price) ∧
      (∀ i, (hi : i < book.bids.length) →
        (book.bids.get ⟨i, hi⟩).quantity = (t.volume : ℚ) / ((i : ℚ) + 1)) ∧
      (∀ i, (hi : i < book.asks.length) →
        (book.asks.get ⟨i, hi⟩).quantity = (t.volume : ℚ) / ((i : ℚ) + 1)) ∧
      ∃ bb ba, (m.update_from_tick t).get_bbo t.symbol = some (bb, ba) ∧ bb < ba := by
  refine ⟨_, update_books_self m t, ?_, ?_, ?_, ?_, ?_, ?_, ?_⟩
  · simp [syntheticBids]
  · simp [syntheticAsks]
  · simp only [syntheticBids, List.pairwise_map]
    exact (List.pairwise_lt_range 5).imp (fun hij => bidLevelPrice_anti t hp hij)
  · simp only [syntheticAsks, List.pairwise_map]
    exact (List.pairwise_lt_range 5).imp (fun hij => askLevelPrice_mono t hp hij)
  · intro i hi
    simp only [syntheticBids, List.length_map, List.length_range] at hi
    simp [syntheticBids, levelQuantity, List.get_eq_getElem, List.getElem_map, List.getElem_range]
  · intro i hi
    simp only [syntheticAsks, List.length_map, List.length_range] at hi
    simp [syntheticAsks, levelQuantity, List.get_eq_getElem, List.getElem_map, List.getElem_range]
  · refine ⟨bidLevelPrice t 0, askLevelPrice t 0, ?_, bid0_lt_ask0 t hp⟩
    have hb : (syntheticBids t).head? =
        some { price := bidLevelPrice t 0, quantity := levelQuantity t 0 } := rfl
    have ha : (syntheticAsks t).head? =
        some { price := askLevelPrice t 0, quantity := levelQuantity t 0 } := rfl
    simp [OrderBookManager.get_bbo, update_books_self m t, OrderBook.best_bid,
      OrderBook.best_ask, hb, ha]

/-- Witness for C4 at the test suite's 45000 tick. -/
theorem C4_witness :
    ∃ book, (OrderBookManager.empty.update_from_tick tick45k).books tick45k.symbol = some book ∧
      book.bids.length = 5 ∧ book.asks.length = 5 ∧
      book.bids.Pairwise (fun a b => b.price < a.price) ∧
      book.asks.Pairwise (fun a b => a.price < b.price) ∧
      (∀ i, (hi : i < book.bids.length) →
        (book.bids.get ⟨i, hi⟩).quantity = (tick45k.volume : ℚ) / ((i : ℚ) + 1)) ∧
      (∀ i, (hi : i < book.asks.length) →
        (book.asks.get ⟨i, hi⟩).quantity = (tick45k.volume : ℚ) / ((i : ℚ) + 1)) ∧
      ∃ bb ba, (OrderBookManager.empty.update_from_tick tick45k).get_bbo tick45k.symbol =
        some (bb, ba) ∧ bb < ba :=
  C4_book_shape_amended OrderBookManager.empty tick45k (by norm_num [tick45k])

/-! ### C7 -/

/-- C7: for a symbol with a book whose included levels have nonnegative
quantities, calculate_vwap returns the defined value (not an error):
Σ(price·qty)/Σ(qty) over the levels selected by the depth argument
(all bid levels when depth = 0, clamped to availability otherwise), and 0
when the included quantities sum to 0. -/
theorem C7_vwap_defined (m : OrderBookManager) (symbol : String) (depth : Nat)
    (book : OrderBook) (hb : m.books symbol = some book)
    (hq : ∀ l ∈ vwapLevels book depth, 0 ≤ l.quantity) :
    m.calculate_vwap symbol depth =
      some (if ((vwapLevels book depth).map fun l => l.quantity).sum = 0 then 0
        else ((vwapLevels book depth).map fun l => l.price * l.quantity).sum /
          ((vwapLevels book depth).map fun l => l.quantity).sum) := by
  have hsum : 0 ≤ ((vwapLevels book depth).map fun l => l.quantity).sum := by
    apply List.sum_nonneg
    intro x hx
    obtain ⟨l, hl, rfl⟩ := List.mem_map.mp hx
    exact hq l hl
  simp only [OrderBookManager.calculate_vwap, hb, Option.map_some]
  by_cases h0 : ((vwapLevels book depth).map fun l => l.quantity).sum = 0
  · simp [h0]
  · have hpos : 0 < ((vwapLevels book depth).map fun l => l.quantity).sum :=
      lt_of_le_of_ne hsum (Ne.symm h0)
    simp [h0, hpos]

/-- Witness for C7: VWAP over the top 3 bid levels of the synthetic
BTC/USD book. -/
theorem C7_witness :
    mgr45k.calculate_vwap "BTC/USD" 3 =
      some (if ((vwapLevels book45k 3).map fun l => l.quantity).sum = 0 then 0
        else ((vwapLevels book45k 3).map fun l => l.price * l.quantity).sum /
          ((vwapLevels book45k 3).map fun l => l.quantity).sum) :=
  C7_vwap_defined mgr45k "BTC/USD" 3 book45k
    (by
      have hr : List.range 5 = [0, 1, 2, 3, 4] := rfl
      norm_num [mgr45k, book45k, OrderBookManager.update_from_tick, OrderBookManager.empty,
        tick45k, syntheticBids, syntheticAsks, OrderBook.new, hr])
    (by
      have hr : List.range 5 = [0, 1, 2, 3, 4] := rfl
      intro l hl
      norm_num [vwapLevels, book45k, syntheticBids, tick45k, levelQuantity, hr] at hl
      rcases hl with h | h | h <;> norm_num [h, bidLevelPrice, levelQuantity, tick45k])

/-! ### C9 -/

/-- C9: update_from_tick leaves the book of every other symbol untouched,
and the updated book's levels and timestamp are functions of the incoming
tick alone (`syntheticBids`/`syntheticAsks`/`tick.timestamp_nanos`),
independent of the book's previous levels. -/
theorem C9_update_frame (m : OrderBookManager) (t : MarketTick) (s : String)
    (hs : s ≠ t.symbol) :
    (m.update_from_tick t).books s = m.books s ∧
    ∃ book, (m.update_from_tick t).books t.symbol = some book ∧
      book.bids = syntheticBids t ∧ book.asks = syntheticAsks t ∧
      book.timestamp_nanos = t.timestamp_nanos := by
  constructor
  · simp [OrderBookManager.update_from_tick, hs]
  · refine ⟨{ symbol := ((m.books t.symbol).getD (OrderBook.new t.symbol t.timestamp_nanos)).symbol
              bids := syntheticBids t, asks := syntheticAsks t
              timestamp_nanos := t.timestamp_nanos }, ?_, rfl, rfl, rfl⟩
    simp [OrderBookManager.update_from_tick]

/-- Witness for C9: updating BTC/USD leaves symbol X alone and installs the
synthetic levels for the incoming tick. -/
theorem C9_witness :
    (OrderBookManager.empty.update_from_tick tick45k).books "X" =
        OrderBookManager.empty.books "X" ∧
    ∃ book, (OrderBookManager.empty.update_from_tick tick45k).books tick45k.symbol = some book ∧
      book.bids = syntheticBids tick45k ∧ book.asks = syntheticAsks tick45k ∧
      book.timestamp_nanos = tick45k.timestamp_nanos :=
  C9_update_frame OrderBookManager.empty tick45k "X" (by decide)

/-! ### C10 -/

/-- C10: for a symbol with no book, or a book with an empty bid or ask side,
get_bbo returns the explicit no-data result `none` (not an error) and
is_crossed returns false. -/
theorem C10_missing_book_no_data (m : OrderBookManager) (symbol : String)
    (h : m.books symbol = none ∨
      ∃ book, m.books symbol = some book ∧ (book.bids = [] ∨ book.asks = [])) :
    m.get_bbo symbol = none ∧ m.is_crossed symbol = false := by
  have hb : m.get_bbo symbol = none := by
    rcases h with h | ⟨book, hbook, h1 | h1⟩
    · simp [OrderBookManager.get_bbo, h]
    · simp [OrderBookManager.get_bbo, hbook, OrderBook.best_bid, OrderBook.best_ask, h1]
    · simp [OrderBookManager.get_bbo, hbook, OrderBook.best_bid, OrderBook.best_ask, h1]
  refine ⟨hb, ?_⟩
  simp [OrderBookManager.is_crossed, hb]

/-- Witness for C10 on the empty manager. -/
theorem C10_witness :
    OrderBookManager.empty.get_bbo "X" = none ∧
    OrderBookManager.empty.is_crossed "X" = false :=
  C10_missing_book_no_data OrderBookManager.empty "X" (Or.inl rfl)

/-! ### C5 and C6: record/replay -/

/-- Folding record_tick over a tick list appends one well-formed line per
tick and counts them. -/
theorem recordAll_foldl (ts : List MarketTick) :
    ∀ r : MarketRecorder, ts.foldl MarketRecorder.record_tick r =
      { lines := r.lines ++ ts.map ReplayLine.ok, tick_count := r.tick_count + ts.length } := by
  induction ts with
  | nil => intro r; simp
  | cons t ts ih =>
    intro r
    rw [List.foldl_cons, ih]
    simp [MarketRecorder.record_tick, List.append_assoc]
    omega

/-- Reading n ticks off a replayer whose next n lines are well formed
yields exactly those ticks and advances the count by n. -/
theorem readTicks_ok_lines (ts : List MarketTick) :
    ∀ (rest : List ReplayLine) (c : Nat),
      readTicks { lines := ts.map ReplayLine.ok ++ rest, tick_count := c } ts.length =
        (ts, { lines := rest, tick_count := c + ts.length }) := by
  induction ts with
  | nil => intro rest c; simp [readTicks]
  | cons t ts ih =>
    intro rest c
    have h := ih rest (c + 1)
    simp only [List.map_cons, List.cons_append, List.length_cons]
    simp [readTicks, MarketReplayer.next_tick, h]
    omega

/-- C5: recording N ticks and then replaying yields the same N ticks in
the same order, field-for-field; the recorder's and replayer's tick_count
both equal N; and one further next_tick call yields the end-of-stream
result `Ok(None)`. -/
theorem C5_record_replay_roundtrip (ts : List MarketTick) :
    (recordAll ts).tick_count = ts.length ∧
    (readTicks (MarketReplayer.new (recordAll ts).lines) ts.length).1 = ts ∧
    (readTicks (MarketReplayer.new (recordAll ts).lines) ts.length).2.tick_count = ts.length ∧
    (readTicks (MarketReplayer.new (recordAll ts).lines) ts.length).2.next_tick =
      (Except.ok none, (readTicks (MarketReplayer.new (recordAll ts).lines) ts.length).2) := by
  have hr : recordAll ts = { lines := ts.map ReplayLine.ok, tick_count := ts.length } := by
    simpa [recordAll, MarketRecorder.new] using recordAll_foldl ts MarketRecorder.new
  have hread : readTicks (MarketReplayer.new (recordAll ts).lines) ts.length =
      (ts, { lines := [], tick_count := ts.length }) := by
    rw [hr]
    simpa [MarketReplayer.new] using readTicks_ok_lines ts [] 0
  exact ⟨by rw [hr], by rw [hread], by rw [hread], by rw [hread]; rfl⟩

/-- C6: next_tick returns the explicit end-of-stream value `Ok(None)` (not
an error) on exhausted input, and a propagated `InvalidData` error on a
malformed line without yielding a tick and without increasing
tick_count. -/
theorem C6_replayer_error_handling (r : MarketReplayer) (rest : List ReplayLine) :
    (r.lines = [] → r.next_tick = (Except.ok none, r)) ∧
    (r.lines = ReplayLine.bad :: rest →
      r.next_tick.1 = Except.error ReplayError.invalidData ∧
      r.next_tick.2.tick_count = r.tick_count) := by
  obtain ⟨lines, c⟩ := r
  constructor
  · rintro rfl
    rfl
  · rintro rfl
    exact ⟨rfl, rfl⟩

/-- Witness for C6: an exhausted replayer signals end-of-stream, and a
replayer at a malformed line propagates the error with its count intact. -/
theorem C6_witness :
    (MarketReplayer.mk [] 3).next_tick = (Except.ok none, MarketReplayer.mk [] 3) ∧
    ((MarketReplayer.mk [ReplayLine.bad] 5).next_tick.1 = Except.error ReplayError.invalidData ∧
      (MarketReplayer.mk [ReplayLine.bad] 5).next_tick.2.tick_count =
        (MarketReplayer.mk [ReplayLine.bad] 5).tick_count) :=
  ⟨(C6_replayer_error_handling (MarketReplayer.mk [] 3) []).1 rfl,
   (C6_replayer_error_handling (MarketReplayer.mk [ReplayLine.bad] 5) []).2 rfl⟩

/-! ### C2: mean reversion -/

/-- The population variance is a mean of squares, hence nonnegative. -/
theorem calculate_variance_nonneg (prices : List ℚ) (mean : ℚ) :
    0 ≤ calculate_variance prices mean := by
  unfold calculate_variance
  apply div_nonneg
  · apply List.sum_nonneg
    intro x hx
    obtain ⟨p, hp, rfl⟩ := List.mem_map.mp hx
    positivity
  · positivity

/-- Zero variance forces every member of the window to equal the mean. -/
theorem eq_mean_of_variance_zero (prices : List ℚ) (mean p : ℚ) (hp : p ∈ prices)
    (h : calculate_variance prices mean = 0) : p = mean := by
  unfold calculate_variance at h
  have hnonneg : ∀ x ∈ prices.map fun q => (q - mean) ^ 2, 0 ≤ x := by
    intro x hx
    obtain ⟨q, hq, rfl⟩ := List.mem_map.mp hx
    positivity
  have hlen : (prices.length : ℚ) ≠ 0 := by
    have h0 : prices ≠ [] := List.ne_nil_of_mem hp
    have h1 : prices.length ≠ 0 := by simpa [List.length_eq_zero] using h0
    exact_mod_cast h1
  rcases div_eq_zero_iff.mp h with h | h
  · have hmem : (p - mean) ^ 2 ∈ prices.map fun q => (q - mean) ^ 2 :=
      List.mem_map_of_mem _ hp
    have hle := List.single_le_sum hnonneg _ hmem
    have hsq : (p - mean) ^ 2 = 0 := le_antisymm (h ▸ hle) (sq_nonneg _)
    have hzero : p - mean = 0 := by
      exact pow_eq_zero_iff (by norm_num) |>.mp hsq
    linarith
  · exact absurd h hlen

/-- The new tick's price is always a member of the statistics window (once
the window is full and the configured window size is positive). -/
theorem price_mem_newHistory (st : MeanReversionStrategy) (e : EnrichedTick)
    (hw : 0 < st.window_size) (hfull : st.window_size ≤ (st.newHistory e).length) :
    e.tick.price ∈ st.newHistory e := by
  unfold MeanReversionStrategy.newHistory pushTrim at hfull ⊢
  by_cases hlen : (st.price_history e.tick.symbol ++ [e.tick.price]).length > st.window_size
  · rw [if_pos hlen] at hfull ⊢
    cases hh : st.price_history e.tick.symbol with
    | nil =>
      rw [hh] at hfull
      simp at hfull
      omega
    | cons a h2 =>
      simp only [List.cons_append, List.tail_cons]
      exact List.mem_append_right _ (List.mem_singleton_self _)
  · rw [if_neg hlen]
    exact List.mem_append_right _ (List.mem_singleton_self _)

/-- The exact-arithmetic signal test against the real z-score, Sell side:
`t < d / sqrt v` iff `t² v < d²` and `d > 0`, given `v ≥ 0`, `t ≥ 0` and
that zero variance forces `d = 0`. -/
theorem zscore_gt_iff (d v t : ℚ) (hv : 0 ≤ v) (ht : 0 ≤ t) (hv0 : v = 0 → d = 0) :
    (t : ℝ) < (d : ℝ) / Real.sqrt (v : ℝ) ↔ (t ^ 2 * v < d ^ 2 ∧ 0 < d) := by
  by_cases hveq : v = 0
  · have hd : d = 0 := hv0 hveq
    rw [hveq, hd]
    have htR : (0:ℝ) ≤ (t:ℝ) := by exact_mod_cast ht
    simp only [Rat.cast_zero, Real.sqrt_zero, div_zero]
    constructor
    · intro hlt
      exact absurd hlt (not_lt.mpr htR)
    · rintro ⟨h1, h2⟩
      exact absurd h2 (lt_irrefl 0)
  · have hvpos : 0 < v := lt_of_le_of_ne hv (Ne.symm hveq)
    have hvR : (0:ℝ) < (v:ℝ) := by exact_mod_cast hvpos
    have hs : 0 < Real.sqrt (v:ℝ) := Real.sqrt_pos.mpr hvR
    have hs2 : Real.sqrt (v:ℝ) ^ 2 = (v:ℝ) := Real.sq_sqrt hvR.le
    have htR : (0:ℝ) ≤ (t:ℝ) := by exact_mod_cast ht
    rw [lt_div_iff₀ hs]
    constructor
    · intro hlt
      have hts : (0:ℝ) ≤ (t:ℝ) * Real.sqrt (v:ℝ) := mul_nonneg htR hs.le
      have hd0 : (0:ℝ) < (d:ℝ) := lt_of_le_of_lt hts hlt
      constructor
      · have hR : (t:ℝ)^2 * (v:ℝ) < (d:ℝ)^2 := by nlinarith [hlt, hts, hs2]
        exact_mod_cast hR
      · exact_mod_cast hd0
    · rintro ⟨h1, h2⟩
      have hR : (t:ℝ)^2 * (v:ℝ) < (d:ℝ)^2 := by exact_mod_cast h1
      have hd0 : (0:ℝ) < (d:ℝ) := by exact_mod_cast h2
      have hts : (0:ℝ) ≤ (t:ℝ) * Real.sqrt (v:ℝ) := mul_nonneg htR hs.le
      nlinarith [hR, hd0, hts, hs2]

/-- The exact-arithmetic signal test against the real z-score, Buy side:
`d / sqrt v < -t` iff `t² v < d²` and `d ≤ 0`, under the same side
conditions. -/
theorem zscore_lt_neg_iff (d v t : ℚ) (hv : 0 ≤ v) (ht : 0 ≤ t) (hv0 : v = 0 → d = 0) :
    (d : ℝ) / Real.sqrt (v : ℝ) < -(t : ℝ) ↔ (t ^ 2 * v < d ^ 2 ∧ ¬ 0 < d) := by
  by_cases hveq : v = 0
  · have hd : d = 0 := hv0 hveq
    rw [hveq, hd]
    have htR : (0:ℝ) ≤ (t:ℝ) := by exact_mod_cast ht
    simp only [Rat.cast_zero, Real.sqrt_zero, div_zero]
    constructor
    · intro hlt
      have h0 : (0:ℝ) < -(t:ℝ) := hlt
      linarith
    · rintro ⟨h1, h2⟩
      simp at h1
  · have hvpos : 0 < v := lt_of_le_of_ne hv (Ne.symm hveq)
    have hvR : (0:ℝ) < (v:ℝ) := by exact_mod_cast hvpos
    have hs : 0 < Real.sqrt (v:ℝ) := Real.sqrt_pos.mpr hvR
    have hs2 : Real.sqrt (v:ℝ) ^ 2 = (v:ℝ) := Real.sq_sqrt hvR.le
    have htR : (0:ℝ) ≤ (t:ℝ) := by exact_mod_cast ht
    rw [div_lt_iff₀ hs]
    constructor
    · intro hlt
      have hts : (0:ℝ) ≤ (t:ℝ) * Real.sqrt (v:ℝ) := mul_nonneg htR hs.le
      have hd0 : (d:ℝ) < 0 := by nlinarith [hlt, hts]
      constructor
      · have hR : (t:ℝ)^2 * (v:ℝ) < (d:ℝ)^2 := by nlinarith [hlt, hts, hs2]
        exact_mod_cast hR
      · intro hpos
        have hc : (0:ℝ) < (d:ℝ) := by exact_mod_cast hpos
        linarith
    · rintro ⟨h1, h2⟩
      have hR : (t:ℝ)^2 * (v:ℝ) < (d:ℝ)^2 := by exact_mod_cast h1
      have hdle : d ≤ 0 := not_lt.mp h2
      have hdleR : (d:ℝ) ≤ 0 := by exact_mod_cast hdle
      have hts : (0:ℝ) ≤ (t:ℝ) * Real.sqrt (v:ℝ) := mul_nonneg htR hs.le
      nlinarith [hR, hdleR, hts, hs2]

/-- Closed form of the first component of process_tick. -/
theorem process_tick_eq (st : MeanReversionStrategy) (e : EnrichedTick) (now : Nat) :
    (st.process_tick e now).1 =
      if (st.newHistory e).length < st.window_size then none
      else if (e.tick.price - calculate_mean (st.newHistory e)) ^ 2 >
          st.std_dev_threshold ^ 2 *
            calculate_variance (st.newHistory e) (calculate_mean (st.newHistory e)) then
        some { symbol := e.tick.symbol
               side := if e.tick.price - calculate_mean (st.newHistory e) > 0
                 then OrderSide.Sell else OrderSide.Buy
               price := e.tick.price, quantity := st.order_size
               signal_type := SignalType.MeanReversion, timestamp_nanos := now }
      else none := by
  unfold MeanReversionStrategy.process_tick
  by_cases h1 : (st.newHistory e).length < st.window_size
  · simp [h1]
  · simp only [h1, if_neg, ite_false]
    by_cases h2 : (e.tick.price - calculate_mean (st.newHistory e)) ^ 2 >
        st.std_dev_threshold ^ 2 *
          calculate_variance (st.newHistory e) (calculate_mean (st.newHistory e))
    · simp [h2]
    · simp [h2]

/-- C2 counterexample: after two ticks at price 100 the window for A is the
full constant window [100, 100] (variance 0, so standard deviation 0) and
no signal has been emitted; yet the next tick, priced 104, makes
process_tick emit a Sell signal — refuting the claim that a zero-stddev
window never signals regardless of the new tick's price. The statistics
are computed over the window with the new price already pushed in. -/
theorem C2_counterexample :
    ((mrSt0.process_tick (mrEnr 100) 0).2.process_tick (mrEnr 100) 0).2.price_history "A" =
      [100, 100] ∧
    calculate_variance [100, 100] (calculate_mean [100, 100]) = 0 ∧
    ((mrSt0.process_tick (mrEnr 100) 0).2.process_tick (mrEnr 100) 0).1 = none ∧
    (((mrSt0.process_tick (mrEnr 100) 0).2.process_tick (mrEnr 100) 0).2.process_tick
        (mrEnr 104) 0).1 =
      some { symbol := "A", side := OrderSide.Sell, price := 104, quantity := 1,
             signal_type := SignalType.MeanReversion, timestamp_nanos := 0 } := by
  refine ⟨?_, ?_, ?_, ?_⟩
  · norm_num [MeanReversionStrategy.process_tick, MeanReversionStrategy.newHistory, pushTrim,
      calculate_mean, calculate_variance, mrSt0, mrEnr]
  · norm_num [calculate_mean, calculate_variance]
  · norm_num [MeanReversionStrategy.process_tick, MeanReversionStrategy.newHistory, pushTrim,
      calculate_mean, calculate_variance, mrSt0, mrEnr]
  · norm_num [MeanReversionStrategy.process_tick, MeanReversionStrategy.newHistory, pushTrim,
      calculate_mean, calculate_variance, mrSt0, mrEnr]

/-- C2 (amended: the window over which mean/stddev are computed includes
the new tick's price, and the threshold is nonnegative): process_tick
returns none while the window holds fewer than window_size prices; once
full, a zero-variance window (all prices identical, which forces the new
price to equal them) yields no signal; otherwise with
z = (price − mean)/stddev over that window it emits Sell when
z > threshold, Buy when z < −threshold, and none when z lies within
[−threshold, threshold]. -/
theorem C2_mean_reversion_amended (st : MeanReversionStrategy) (e : EnrichedTick) (now : Nat)
    (hw : 0 < st.window_size) (ht : 0 ≤ st.std_dev_threshold) :
    ((st.newHistory e).length < st.window_size → (st.process_tick e now).1 = none) ∧
    (st.window_size ≤ (st.newHistory e).length →
      (calculate_variance (st.newHistory e) (calculate_mean (st.newHistory e)) = 0 →
        (st.process_tick e now).1 = none) ∧
      ((st.std_dev_threshold : ℝ) < zScore (st.newHistory e) e.tick.price →
        (st.process_tick e now).1 =
          some { symbol := e.tick.symbol, side := OrderSide.Sell, price := e.tick.price,
                 quantity := st.order_size, signal_type := SignalType.MeanReversion,
                 timestamp_nanos := now }) ∧
      (zScore (st.newHistory e) e.tick.price < -(st.std_dev_threshold : ℝ) →
        (st.process_tick e now).1 =
          some { symbol := e.tick.symbol, side := OrderSide.Buy, price := e.tick.price,
                 quantity := st.order_size, signal_type := SignalType.MeanReversion,
                 timestamp_nanos := now }) ∧
      (-(st.std_dev_threshold : ℝ) ≤ zScore (st.newHistory e) e.tick.price →
        zScore (st.newHistory e) e.tick.price ≤ (st.std_dev_threshold : ℝ) →
        (st.process_tick e now).1 = none)) := by
  constructor
  · intro hlt
    rw [process_tick_eq, if_pos hlt]
  · intro hfull
    have hnlt : ¬ (st.newHistory e).length < st.window_size := not_lt.mpr hfull
    have hmem : e.tick.price ∈ st.newHistory e := price_mem_newHistory st e hw hfull
    have hv : 0 ≤ calculate_variance (st.newHistory e) (calculate_mean (st.newHistory e)) :=
      calculate_variance_nonneg _ _
    have hv0 : calculate_variance (st.newHistory e) (calculate_mean (st.newHistory e)) = 0 →
        e.tick.price - calculate_mean (st.newHistory e) = 0 := by
      intro h
      have heq := eq_mean_of_variance_zero (st.newHistory e) (calculate_mean (st.newHistory e))
        e.tick.price hmem h
      linarith
    have hgt := zscore_gt_iff (e.tick.price - calculate_mean (st.newHistory e))
      (calculate_variance (st.newHistory e) (calculate_mean (st.newHistory e)))
      st.std_dev_threshold hv ht hv0
    have hltn := zscore_lt_neg_iff (e.tick.price - calculate_mean (st.newHistory e))
      (calculate_variance (st.newHistory e) (calculate_mean (st.newHistory e)))
      st.std_dev_threshold hv ht hv0
    have hzdef : zScore (st.newHistory e) e.tick.price =
        ((e.tick.price - calculate_mean (st.newHistory e) : ℚ) : ℝ) /
          Real.sqrt ((calculate_variance (st.newHistory e)
            (calculate_mean (st.newHistory e)) : ℚ) : ℝ) := rfl
    refine ⟨?_, ?_, ?_, ?_⟩
    · intro hvz
      rw [process_tick_eq, if_neg hnlt, if_neg]
      rw [hvz, hv0 hvz]
      norm_num
    · intro hz
      rw [hzdef] at hz
      obtain ⟨hsq, hd⟩ := hgt.mp (by push_cast at hz ⊢; exact hz)
      rw [process_tick_eq, if_neg hnlt, if_pos (by exact hsq), if_pos hd]
    · intro hz
      rw [hzdef] at hz
      obtain ⟨hsq, hd⟩ := hltn.mp (by push_cast at hz ⊢; exact hz)
      rw [process_tick_eq, if_neg hnlt, if_pos (by exact hsq), if_neg hd]
    · intro hz1 hz2
      rw [process_tick_eq, if_neg hnlt, if_neg]
      intro hsq
      by_cases hd : 0 < e.tick.price - calculate_mean (st.newHistory e)
      · have hc := hgt.mpr ⟨hsq, hd⟩
        rw [hzdef] at hz2
        push_cast at hc hz2
        linarith
      · have hc := hltn.mpr ⟨hsq, hd⟩
        rw [hzdef] at hz1
        push_cast at hc hz1
        linarith

/-- Witness for C2: window [100] plus new tick at 104 gives window
[100, 104], mean 102, stddev 2, z = 1 > threshold 1/2, so Sell. -/
theorem C2_witness :
    (mrSt1.process_tick (mrEnr 104) 0).1 =
      some { symbol := "A", side := OrderSide.Sell, price := 104, quantity := 1,
             signal_type := SignalType.MeanReversion, timestamp_nanos := 0 } :=
  ((C2_mean_reversion_amended mrSt1 (mrEnr 104) 0 (by norm_num [mrSt1])
      (by norm_num [mrSt1])).2
    (by norm_num [mrSt1, mrEnr, MeanReversionStrategy.newHistory, pushTrim])).2.1
    (by
      have hH : mrSt1.newHistory (mrEnr 104) = [100, 104] := by
        norm_num [mrSt1, mrEnr, MeanReversionStrategy.newHistory, pushTrim]
      unfold zScore
      rw [hH]
      have hm : calculate_mean [100, 104] = 102 := by norm_num [calculate_mean]
      rw [hm]
      have hv : calculate_variance [100, 104] 102 = 4 := by
        norm_num [calculate_variance]
      rw [hv]
      have h4 : ((4:ℚ):ℝ) = (2:ℝ)^2 := by norm_num
      rw [h4, Real.sqrt_sq (by norm_num : (0:ℝ) ≤ 2)]
      norm_num [mrSt1, mrEnr])

/-! ### C3: replay statistics -/

/-- The timestamp of the last tick of a nonempty list (head plus rest). -/
def lastTimestamp (t0 : MarketTick) : List MarketTick → Nat
  | [] => t0.timestamp_nanos
  | t :: rest => lastTimestamp t rest

/-- The running end_timestamp accumulator: the last tick's timestamp, or
the current accumulator value for an empty remainder. -/
def lastTimestampD (stop : Nat) : List MarketTick → Nat
  | [] => stop
  | t :: rest => lastTimestampD t.timestamp_nanos rest

theorem lastTimestampD_cons (stop : Nat) (t0 : MarketTick) (rest : List MarketTick) :
    lastTimestampD stop (t0 :: rest) = lastTimestamp t0 rest := by
  induction rest generalizing stop t0 with
  | nil => rfl
  | cons t rest ih => exact ih t0.timestamp_nanos t

/-- Invariant of the ReplayStats accumulator loop once at least one tick
has been consumed: the count advances by the remaining length, the start
timestamp is frozen, the end timestamp tracks the last tick, and the
symbol set accumulates the remaining symbols. -/
theorem statsLoop_spec (ts : List MarketTick) :
    ∀ (total start stop : Nat) (syms : Finset String), 0 < total →
      statsLoop ts total start stop syms =
        (total + ts.length, start, lastTimestampD stop ts,
          syms ∪ (ts.map fun t => t.symbol).toFinset) := by
  induction ts with
  | nil =>
    intro total start stop syms htot
    simp [statsLoop, lastTimestampD]
  | cons t ts ih =>
    intro total start stop syms htot
    have hne : total ≠ 0 := Nat.pos_iff_ne_zero.mp htot
    rw [statsLoop, if_neg hne, ih (total + 1) start t.timestamp_nanos
      (insert t.symbol syms) (Nat.succ_pos total)]
    have harith : total + 1 + ts.length = total + (t :: ts).length := by
      simp
      omega
    rw [harith]
    have hsyms : insert t.symbol syms ∪ (ts.map fun x => x.symbol).toFinset =
        syms ∪ ((t :: ts).map fun x => x.symbol).toFinset := by
      simp [List.toFinset_cons, Finset.insert_union, Finset.union_insert]
    rw [hsyms]
    rfl

/-- u128 wrapping subtraction coincides with truncated subtraction when the
minuend dominates and fits in 128 bits. -/
theorem wrapSub128_of_le (a b : Nat) (hle : b ≤ a) (ha : a < two128) :
    wrapSub128 a b = a - b := by
  unfold wrapSub128
  have h1 : a + two128 - b = (a - b) + two128 := by omega
  rw [h1, Nat.add_mod_right, Nat.mod_eq_of_lt (by omega)]

/-- Tick whose origin timestamp is 2 ms after epoch. -/
def tickLate : MarketTick := { symbol := "A", price := 1, volume := 1, timestamp_nanos := 2000000 }

/-- Tick at epoch. -/
def tickEarly : MarketTick := { symbol := "A", price := 1, volume := 1, timestamp_nanos := 0 }

/-- C3 counterexample: on a well-formed two-tick file whose timestamps
decrease (first 2000000 ns, last 0 ns), the u128 subtraction
`end_timestamp - start_timestamp` wraps (panics in debug builds), so
duration_ms is the huge truncated value `(2^128 − 2000000) / 10^6 mod 2^64`
instead of the claimed difference of last and first timestamps (−2 ms). -/
theorem C3_counterexample :
    (ReplayStats.from_list [tickLate, tickEarly]).duration_ms =
      (two128 - 2000000) / 1000000 % two64 ∧
    ((ReplayStats.from_list [tickLate, tickEarly]).duration_ms : ℤ) ≠
      ((tickEarly.timestamp_nanos : ℤ) - (tickLate.timestamp_nanos : ℤ)) / 1000000 := by
  have h : (ReplayStats.from_list [tickLate, tickEarly]).duration_ms =
      (two128 - 2000000) / 1000000 % two64 := by
    norm_num [ReplayStats.from_list, statsLoop, wrapSub128, tickLate, tickEarly]
  refine ⟨h, ?_⟩
  rw [h]
  norm_num [two128, two64, tickLate, tickEarly]

/-- C3 (amended: the last tick's timestamp is at least the first's, both
fit in u128, and the millisecond quotient fits in u64): ReplayStats over a
well-formed nonempty file yields total_ticks = N, start/end equal to the
first/last tick's timestamps, duration_ms = (last − first)/10^6, and
symbols equal to the distinct set of symbols encountered, in one pass. -/
theorem C3_replay_stats_amended (t0 : MarketTick) (rest : List MarketTick)
    (hle : t0.timestamp_nanos ≤ lastTimestamp t0 rest)
    (hlt : lastTimestamp t0 rest < two128)
    (hdur : (lastTimestamp t0 rest - t0.timestamp_nanos) / 1000000 < two64) :
    ReplayStats.from_list (t0 :: rest) =
      { total_ticks := (t0 :: rest).length
        start_timestamp := t0.timestamp_nanos
        end_timestamp := lastTimestamp t0 rest
        duration_ms := (lastTimestamp t0 rest - t0.timestamp_nanos) / 1000000
        symbols := ((t0 :: rest).map fun t => t.symbol).toFinset } := by
  have hloop : statsLoop (t0 :: rest) 0 0 0 ∅ =
      (1 + rest.length, t0.timestamp_nanos, lastTimestamp t0 rest,
        (insert t0.symbol ∅ : Finset String) ∪ (rest.map fun t => t.symbol).toFinset) := by
    rw [statsLoop, if_pos rfl, statsLoop_spec rest 1 t0.timestamp_nanos t0.timestamp_nanos
      (insert t0.symbol ∅) Nat.one_pos]
    rw [show lastTimestampD t0.timestamp_nanos rest = lastTimestamp t0 rest from
      lastTimestampD_cons t0.timestamp_nanos t0 rest ▸ rfl]
  unfold ReplayStats.from_list
  rw [hloop]
  simp only [List.length_cons, List.map_cons, List.toFinset_cons]
  rw [wrapSub128_of_le _ _ hle hlt]
  rw [Nat.mod_eq_of_lt hdur]
  rw [Nat.add_comm 1 rest.length]
  simp [Finset.insert_union, ← Finset.insert_eq]

/-- Witness for C3 on the ordered two-tick file [tickEarly, tickLate]:
2 ticks, start 0, end 2000000, duration 2 ms, symbols {A}. -/
theorem C3_witness :
    ReplayStats.from_list [tickEarly, tickLate] =
      { total_ticks := ([tickEarly, tickLate] : List MarketTick).length
        start_timestamp := tickEarly.timestamp_nanos
        end_timestamp := lastTimestamp tickEarly [tickLate]
        duration_ms := (lastTimestamp tickEarly [tickLate] - tickEarly.timestamp_nanos) / 1000000
        symbols := (([tickEarly, tickLate] : List MarketTick).map fun t => t.symbol).toFinset } :=
  C3_replay_stats_amended tickEarly [tickLate]
    (by norm_num [lastTimestamp, tickEarly, tickLate])
    (by norm_num [lastTimestamp, tickEarly, tickLate, two128])
    (by norm_num [lastTimestamp, tickEarly, tickLate, two64])

end HftDemo
